import Mathlib

/-
  Verification of the incremental trace-tree builder and snapshot log of
  pyleup (src/pyleup.py).

  Shallow embedding notes:
  - Source locations are modelled as already-absolute path strings, so
    os.path.abspath is the identity on them, and os.sep is "/".
  - A Python value is modelled by the outcome of repr on it: either a
    string, or a failure carrying the runtime type name (repr raised).
  - Mutable lists (nodes, stack, snaps) become explicit state threaded
    through each tracer step; Python object references inside the stack
    and in Node.parent become indices into the nodes list.  The stack is
    kept with its top as the list head (Python appends and pops at the
    end); depth = stack length is unchanged by this choice.
  - Timestamps and memory counters are opaque naturals supplied by the
    environment of each event; the float division by 1e6 in the report
    assembler is modelled exactly over the rationals.
-/

namespace Pyleup

/-- Total lookup into a list with an explicit default, mirroring indexing
into a Python list that the program only performs in range. -/
def lget {α : Type} (d : α) : List α → Nat → α
  | [], _ => d
  | a :: _, 0 => a
  | _ :: t, n + 1 => lget d t n

/-- Outcome of applying repr to a Python value: the produced string, or
none when repr raised, together with the runtime type name used by the
placeholder text. -/
structure Value where
  reprStr : Option String
  typeName : String
deriving DecidableEq, Repr

/-- Embedding of safe_repr: best-effort textual conversion, truncating to
maxlen characters with an ellipsis marker, and substituting a placeholder
naming the runtime type when repr fails. -/
def safe_repr (val : Value) (maxlen : Nat) : String :=
  match val.reprStr with
  | none => "<unrepr " ++ val.typeName ++ ">"
  | some s => if maxlen < s.length then s.take maxlen ++ "…" else s

/-- Configuration: the parsed command-line flags together with the derived
paths (entry file, its directory) and the sysconfig stdlib locations. -/
structure Config where
  include_stdlib : Bool
  lines : Int
  heap_stats : Bool
  prog_abs : String
  target_root : String
  stdlib_path : String
  platstdlib_path : String
deriving DecidableEq, Repr

/-- Embedding of the Python str method startswith, spelled out over the
character lists so that it evaluates inside the kernel. -/
def startswith (s pre : String) : Bool := pre.data.isPrefixOf s.data

/-- Embedding of is_stdlib: an empty path counts as stdlib; otherwise the
path is stdlib when it lies beneath either sysconfig stdlib directory. -/
def is_stdlib (cfg : Config) (path : String) : Bool :=
  if path = "" then true
  else startswith path (cfg.stdlib_path ++ "/") || startswith path (cfg.platstdlib_path ++ "/")

/-- Embedding of want: decide whether a file participates in tracing.
Empty paths are rejected; the path must be the entry file or lie beneath
its directory; stdlib paths are rejected unless include_stdlib is set. -/
def want (cfg : Config) (path : String) : Bool :=
  if path = "" then false
  else if ¬ (path = cfg.prog_abs ∨ startswith path (cfg.target_root ++ "/")) then false
  else if (¬ cfg.include_stdlib) ∧ is_stdlib cfg path then false
  else true

/-- One aggregated allocation-site row of the optional heavyweight
tracemalloc statistics. -/
structure TopStat where
  file : String
  line : Nat
  size : Nat
  count : Nat
deriving DecidableEq, Repr

/-- Raw tracemalloc statistic before the builder reduces it: a traceback
(list of file, line pairs) plus aggregate size and count. -/
structure RawStat where
  traceback : List (String × Nat)
  size : Nat
  count : Nat
deriving DecidableEq, Repr

/-- Result of attempting the heavyweight tracemalloc snapshot: the
statistics, or the exception the attempt raised. -/
inductive HeavyResult where
  | ok (stats : List RawStat)
  | err (e : Value)
deriving DecidableEq, Repr

/-- Per-event readings from the environment: wall-clock time, the traced
memory counters, and the outcome of the heavyweight capture were it
attempted. -/
structure SnapEnv where
  ts : Nat
  current : Nat
  peak : Nat
  heavy : HeavyResult
deriving DecidableEq, Repr

/-- The parts of a Python frame the tracer reads: code filename, code
name, first line of the code object, current line, and the bound locals. -/
structure Frame where
  filename : String
  name : String
  firstlineno : Nat
  lineno : Nat
  locals : List (String × Value)
deriving DecidableEq, Repr

/-- Embedding of the snapshot payload dict appended by take_snapshot. -/
structure Snap where
  ts : Nat
  kind : String
  node_id : Nat
  file : String
  lineno : Nat
  func : String
  locals : List (String × String)
  tracemalloc_current : Nat
  tracemalloc_peak : Nat
  tracemalloc_top : Option (List TopStat)
  tracemalloc_top_error : Option String
deriving DecidableEq, Repr

/-- The optional heavyweight fields of a payload: when heap_stats is set,
either the top twenty allocation sites (those with a nonempty traceback),
or the recorded capture error. -/
def heavyFields (cfg : Config) (env : SnapEnv) : Option (List TopStat) × Option String :=
  if cfg.heap_stats then
    match env.heavy with
    | HeavyResult.ok stats =>
        (some ((stats.take 20).filterMap fun s =>
          match s.traceback with
          | [] => none
          | (f, l) :: _ => some ⟨f, l, s.size, s.count⟩), none)
    | HeavyResult.err e => (none, some (safe_repr e 200))
  else (none, none)

/-- The payload record take_snapshot builds before appending it. -/
def mkPayload (cfg : Config) (kind : String) (frame : Frame) (node_id : Nat)
    (lineno : Nat) (env : SnapEnv) : Snap :=
  { ts := env.ts, kind := kind, node_id := node_id,
    file := frame.filename, lineno := lineno, func := frame.name,
    locals := frame.locals.map fun kv => (kv.1, safe_repr kv.2 200),
    tracemalloc_current := env.current, tracemalloc_peak := env.peak,
    tracemalloc_top := (heavyFields cfg env).1,
    tracemalloc_top_error := (heavyFields cfg env).2 }

/-- Embedding of take_snapshot: append the payload to the snapshot log and
return the new log together with the index of the appended record. -/
def take_snapshot (cfg : Config) (kind : String) (frame : Frame) (node_id : Nat)
    (lineno : Nat) (env : SnapEnv) (snaps : List Snap) : List Snap × Nat :=
  (snaps ++ [mkPayload cfg kind frame node_id lineno env], snaps.length)

/-- A label in a node event log: Python uses strings for the def, spacer
and return markers, and bare integers for sampled line numbers. -/
inductive Label where
  | str (s : String)
  | num (n : Nat)
deriving DecidableEq, Repr

/-- Embedding of the Node record; parent is the index of the parent node
in the creation-ordered node list (the embedding of the Python object
reference), and lines is the event log of (label, snapshot index) pairs. -/
structure Node where
  id : Nat
  parent : Option Nat
  name : String
  file : String
  first_line : Nat
  depth : Nat
  start_ns : Nat
  end_ns : Option Nat
  lines : List (Label × Option Nat)
deriving DecidableEq, Repr

/-- Default node used by total list lookup. -/
def dN : Node :=
  { id := 0, parent := none, name := "", file := "", first_line := 0,
    depth := 0, start_ns := 0, end_ns := none, lines := [] }

/-- Default snapshot used by total list lookup. -/
def dS : Snap :=
  { ts := 0, kind := "", node_id := 0, file := "", lineno := 0, func := "",
    locals := [], tracemalloc_current := 0, tracemalloc_peak := 0,
    tracemalloc_top := none, tracemalloc_top_error := none }

/-- Append an entry to a node event log (the embedding of mutating
n.lines in place). -/
def addEntry (e : Label × Option Nat) (n : Node) : Node :=
  { n with lines := n.lines ++ [e] }

/-- Set the end timestamp of a node (the embedding of mutating n.end_ns). -/
def setEnd (now : Nat) (n : Node) : Node :=
  { n with end_ns := some now }

/-- The mutable builder state closed over by tracer: the creation-ordered
node list, the open-call stack (top first, entries are indices into
nodes), the id allocator, the run-global line counter, and the snapshot
log. -/
structure BState where
  nodes : List Node
  stack : List Nat
  next_id : Nat
  line_counter : Nat
  snaps : List Snap
deriving DecidableEq, Repr

/-- The builder state before any event arrives. -/
def initState : BState :=
  { nodes := [], stack := [], next_id := 1, line_counter := 0, snaps := [] }

/-- A call, line or return notification delivered by sys.settrace,
together with the perf-counter reading and the snapshot environment of
that moment. -/
inductive Event where
  | call (frame : Frame) (now : Nat) (env : SnapEnv)
  | line (frame : Frame) (env : SnapEnv)
  | ret (frame : Frame) (now : Nat) (env : SnapEnv)
deriving DecidableEq, Repr

/-- The frame an event carries. -/
def evFrame : Event → Frame
  | Event.call f _ _ => f
  | Event.line f _ => f
  | Event.ret f _ _ => f

/-- The Node constructed by the call branch of tracer, before its def
entry is logged: fresh id from the allocator, parent and depth from the
current stack, start timestamp from the perf counter. -/
def newNode (st : BState) (frame : Frame) (now : Nat) : Node :=
  { id := st.next_id, parent := st.stack.head?, name := frame.name,
    file := frame.filename, first_line := frame.firstlineno,
    depth := st.stack.length, start_ns := now, end_ns := none, lines := [] }

/-- The call branch of tracer: build the new node, append the spacer to
the parent on top of the stack, append the node, push it, take the call
snapshot and record the def entry on the new node. -/
def onCall (cfg : Config) (st : BState) (frame : Frame) (now : Nat) (env : SnapEnv) : BState :=
  let n : Node := newNode st frame now
  let nodes1 :=
    match st.stack with
    | p :: _ => st.nodes.set p (addEntry (Label.str "__child__", none) (lget dN st.nodes p))
    | [] => st.nodes
  let res := take_snapshot cfg "call" frame n.id n.first_line env st.snaps
  { nodes := nodes1 ++ [addEntry (Label.str ("def@" ++ toString n.first_line), some res.2) n],
    stack := nodes1.length :: st.stack,
    next_id := st.next_id + 1,
    line_counter := st.line_counter,
    snaps := res.1 }

/-- The line branch of tracer: when the stack is nonempty and sampling is
enabled, bump the run-global counter and, exactly when it has reached a
multiple of the interval, take a line snapshot for the stack top and log
the line number on it. -/
def onLine (cfg : Config) (st : BState) (frame : Frame) (env : SnapEnv) : BState :=
  match st.stack with
  | top :: _ =>
    if 0 < cfg.lines then
      let lc := st.line_counter + 1
      if (lc : Int) % cfg.lines = 0 then
        let res := take_snapshot cfg "line" frame (lget dN st.nodes top).id frame.lineno env st.snaps
        { st with
          line_counter := lc
          snaps := res.1
          nodes := st.nodes.set top (addEntry (Label.num frame.lineno, some res.2) (lget dN st.nodes top)) }
      else { st with line_counter := lc }
    else st
  | [] => st

/-- The return branch of tracer: when the stack is nonempty, take a
return snapshot for the stack top, set its end timestamp, log the return
entry and pop it. -/
def onReturn (cfg : Config) (st : BState) (frame : Frame) (now : Nat) (env : SnapEnv) : BState :=
  match st.stack with
  | top :: rest =>
    let res := take_snapshot cfg "return" frame (lget dN st.nodes top).id frame.lineno env st.snaps
    { nodes := st.nodes.set top (addEntry (Label.str "return", some res.2) (setEnd now (lget dN st.nodes top))),
      stack := rest, next_id := st.next_id, line_counter := st.line_counter,
      snaps := res.1 }
  | [] => st

/-- Embedding of tracer: reject uninteresting frames outright (the false
component embeds returning None, the skip-subtree signal), otherwise
dispatch on the event kind; the true component embeds returning tracer
itself to keep tracing. -/
def tracer (cfg : Config) (st : BState) (ev : Event) : Bool × BState :=
  if want cfg (evFrame ev).filename then
    match ev with
    | Event.call f now env => (true, onCall cfg st f now env)
    | Event.line f env => (true, onLine cfg st f env)
    | Event.ret f now env => (true, onReturn cfg st f now env)
  else (false, st)

/-- Run the builder over a whole event sequence from the initial state. -/
def run (cfg : Config) (evs : List Event) : BState :=
  evs.foldl (fun st ev => (tracer cfg st ev).2) initState

/-- Python or applied to the nullable end timestamp: a missing or zero
(falsy) end timestamp falls back to the start timestamp. -/
def pyOr (o : Option Nat) (d : Nat) : Nat :=
  match o with
  | none => d
  | some e => if e = 0 then d else e

/-- A row of the report: everything main copies out of a node, with the
duration in milliseconds computed over the rationals. -/
structure Row where
  id : Nat
  name : String
  file : String
  first_line : Nat
  depth : Nat
  dur_ms : ℚ
  lines : List (Label × Option Nat)
deriving DecidableEq, Repr

/-- Embedding of the row main builds for one node. -/
def mkRow (n : Node) : Row :=
  { id := n.id, name := n.name, file := n.file, first_line := n.first_line,
    depth := n.depth,
    dur_ms := (((pyOr n.end_ns n.start_ns : Int) - (n.start_ns : Int) : ℚ)) / 1000000,
    lines := n.lines }

/-- Embedding of the report assembly loop of main: one row per node, in
creation order. -/
def rowsOf (nodes : List Node) : List Row := nodes.map mkRow

/-! Basic lemmas about total list lookup. -/

theorem lget_append_lt {α : Type} (d : α) (l l2 : List α) (i : Nat) (h : i < l.length) :
    lget d (l ++ l2) i = lget d l i := by
  induction l generalizing i with
  | nil => exact absurd h (Nat.not_lt_zero i)
  | cons a t ih =>
    cases i with
    | zero => rfl
    | succ n => exact ih n (Nat.lt_of_succ_lt_succ h)

theorem lget_append_len {α : Type} (d : α) (l : List α) (a : α) :
    lget d (l ++ [a]) l.length = a := by
  induction l with
  | nil => rfl
  | cons b t ih => exact ih

theorem lget_set {α : Type} (d : α) (l : List α) (i j : Nat) (a : α) :
    lget d (l.set i a) j = if j = i ∧ i < l.length then a else lget d l j := by
  induction l generalizing i j with
  | nil => simp [List.set, lget]
  | cons b t ih =>
    cases i with
    | zero =>
      cases j with
      | zero => simp [List.set, lget]
      | succ m => simp [List.set, lget]
    | succ n =>
      cases j with
      | zero => simp [List.set, lget]
      | succ m =>
        simp only [List.set, lget, ih, List.length_cons]
        by_cases hmn : m = n
        · subst hmn
          by_cases hlt : m < t.length
          · simp [hlt, Nat.succ_lt_succ hlt]
          · simp [hlt, fun h => hlt (Nat.lt_of_succ_lt_succ h)]
        · simp [hmn, fun h : m + 1 = n + 1 => hmn (Nat.succ_injective h)]

theorem filter_append_one {α : Type} (p : α → Bool) (l : List α) (a : α) :
    (List.filter p (l ++ [a])).length
      = (List.filter p l).length + if p a then 1 else 0 := by
  rw [List.filter_append]
  by_cases h : p a
  · simp [List.filter, h]
  · simp [List.filter, h]

/-! The skeleton relation: the second node list extends the first and
agrees with it pointwise on the immutable fields id, parent and depth.
All tracer updates to already-created nodes only touch lines and end_ns,
so each step's node list is skeleton-above the previous one. -/

def skel (l1 l2 : List Node) : Prop :=
  l1.length ≤ l2.length ∧ ∀ i, i < l1.length →
    (lget dN l2 i).id = (lget dN l1 i).id ∧
    (lget dN l2 i).parent = (lget dN l1 i).parent ∧
    (lget dN l2 i).depth = (lget dN l1 i).depth

theorem skel_refl (l : List Node) : skel l l :=
  ⟨Nat.le_refl _, fun _ _ => ⟨rfl, rfl, rfl⟩⟩

theorem skel_trans {l1 l2 l3 : List Node} (h12 : skel l1 l2) (h23 : skel l2 l3) :
    skel l1 l3 := by
  refine ⟨Nat.le_trans h12.1 h23.1, fun i hi => ?_⟩
  have e12 := h12.2 i hi
  have e23 := h23.2 i (Nat.lt_of_lt_of_le hi h12.1)
  exact ⟨e23.1.trans e12.1, e23.2.1.trans e12.2.1, e23.2.2.trans e12.2.2⟩

theorem skel_set (l : List Node) (p : Nat) (f : Node → Node)
    (hf : ∀ n, (f n).id = n.id ∧ (f n).parent = n.parent ∧ (f n).depth = n.depth) :
    skel l (l.set p (f (lget dN l p))) := by
  refine ⟨by simp, fun i hi => ?_⟩
  rw [lget_set]
  by_cases hip : i = p ∧ p < l.length
  · rw [if_pos hip]
    obtain ⟨rfl, _⟩ := hip
    exact hf (lget dN l i)
  · rw [if_neg hip]
    exact ⟨rfl, rfl, rfl⟩

theorem skel_append_one (l : List Node) (n : Node) : skel l (l ++ [n]) := by
  refine ⟨by simp, fun i hi => ?_⟩
  rw [lget_append_lt dN l [n] i hi]
  exact ⟨rfl, rfl, rfl⟩

theorem addEntry_skel_fields (e : Label × Option Nat) :
    ∀ n : Node, ((addEntry e n).id = n.id ∧ (addEntry e n).parent = n.parent ∧
      (addEntry e n).depth = n.depth) :=
  fun _ => ⟨rfl, rfl, rfl⟩

theorem ret_update_skel_fields (e : Label × Option Nat) (now : Nat) :
    ∀ n : Node, ((addEntry e (setEnd now n)).id = n.id ∧
      (addEntry e (setEnd now n)).parent = n.parent ∧
      (addEntry e (setEnd now n)).depth = n.depth) :=
  fun _ => ⟨rfl, rfl, rfl⟩

/-! The stack invariant: every open index is in range, the node on top
was created when the rest of the stack was the whole stack (so its depth
is the length of the rest and its parent is the next entry down). -/

def stackOK (nodes : List Node) : List Nat → Prop
  | [] => True
  | i :: rest => i < nodes.length ∧ (lget dN nodes i).depth = rest.length ∧
      (lget dN nodes i).parent = rest.head? ∧ stackOK nodes rest

theorem stackOK_skel {l1 l2 : List Node} (h : skel l1 l2) :
    ∀ s, stackOK l1 s → stackOK l2 s := by
  intro s
  induction s with
  | nil => intro _; trivial
  | cons i rest ih =>
    intro hs
    obtain ⟨hi, hd, hp, hr⟩ := hs
    have heq := h.2 i hi
    exact ⟨Nat.lt_of_lt_of_le hi h.1, heq.2.2.trans hd, heq.2.1.trans hp, ih hr⟩

/-- The run invariant of the builder state: the id allocator is one past
the node count, ids are position plus one, the stack is well formed,
parent links point strictly backwards with depth one more than the
parent, every stored snapshot handle is in range, and with sampling
enabled the number of line snapshots is the line counter divided by the
interval. -/
structure Inv (cfg : Config) (st : BState) : Prop where
  next_id_eq : st.next_id = st.nodes.length + 1
  ids : ∀ i, i < st.nodes.length → (lget dN st.nodes i).id = i + 1
  stack_ok : stackOK st.nodes st.stack
  parent_some : ∀ i, i < st.nodes.length → ∀ p, (lget dN st.nodes i).parent = some p →
      p < i ∧ (lget dN st.nodes p).depth + 1 = (lget dN st.nodes i).depth
  parent_none : ∀ i, i < st.nodes.length → (lget dN st.nodes i).parent = none →
      (lget dN st.nodes i).depth = 0
  handles : ∀ i, i < st.nodes.length → ∀ e ∈ (lget dN st.nodes i).lines,
      ∀ h, e.2 = some h → h < st.snaps.length
  line_count : 0 < cfg.lines →
      (st.snaps.filter fun s => s.kind == "line").length = st.line_counter / cfg.lines.toNat

/-! Shape lemmas: the explicit state each tracer branch produces. -/

theorem onCall_nil (cfg : Config) (st : BState) (f : Frame) (now : Nat) (env : SnapEnv)
    (hst : st.stack = []) :
    onCall cfg st f now env =
      { nodes := st.nodes ++
          [addEntry (Label.str ("def@" ++ toString f.firstlineno), some st.snaps.length)
            (newNode st f now)],
        stack := [st.nodes.length],
        next_id := st.next_id + 1,
        line_counter := st.line_counter,
        snaps := st.snaps ++ [mkPayload cfg "call" f st.next_id f.firstlineno env] } := by
  simp [onCall, hst, take_snapshot, newNode]

theorem onCall_cons (cfg : Config) (st : BState) (f : Frame) (now : Nat) (env : SnapEnv)
    (p : Nat) (rest : List Nat) (hst : st.stack = p :: rest) :
    onCall cfg st f now env =
      { nodes := (st.nodes.set p (addEntry (Label.str "__child__", none) (lget dN st.nodes p))) ++
          [addEntry (Label.str ("def@" ++ toString f.firstlineno), some st.snaps.length)
            (newNode st f now)],
        stack := st.nodes.length :: p :: rest,
        next_id := st.next_id + 1,
        line_counter := st.line_counter,
        snaps := st.snaps ++ [mkPayload cfg "call" f st.next_id f.firstlineno env] } := by
  simp [onCall, hst, take_snapshot, newNode]

theorem onLine_nil (cfg : Config) (st : BState) (f : Frame) (env : SnapEnv)
    (hst : st.stack = []) : onLine cfg st f env = st := by
  simp [onLine, hst]

theorem onLine_off (cfg : Config) (st : BState) (f : Frame) (env : SnapEnv)
    (hN : ¬ 0 < cfg.lines) : onLine cfg st f env = st := by
  cases hst : st.stack with
  | nil => simp [onLine, hst]
  | cons top rest => simp [onLine, hst, hN]

theorem onLine_hit (cfg : Config) (st : BState) (f : Frame) (env : SnapEnv)
    (top : Nat) (rest : List Nat) (hst : st.stack = top :: rest) (hN : 0 < cfg.lines)
    (hm : ((st.line_counter + 1 : Nat) : Int) % cfg.lines = 0) :
    onLine cfg st f env =
      { st with
        line_counter := st.line_counter + 1
        snaps := st.snaps ++
          [mkPayload cfg "line" f (lget dN st.nodes top).id f.lineno env]
        nodes := st.nodes.set top
          (addEntry (Label.num f.lineno, some st.snaps.length) (lget dN st.nodes top)) } := by
  have hdvd : cfg.lines ∣ ((st.line_counter + 1 : Nat) : Int) := Int.dvd_of_emod_eq_zero hm
  push_cast at hdvd
  simp [onLine, hst, hN, take_snapshot, hdvd]

theorem onLine_miss (cfg : Config) (st : BState) (f : Frame) (env : SnapEnv)
    (top : Nat) (rest : List Nat) (hst : st.stack = top :: rest) (hN : 0 < cfg.lines)
    (hm : ¬ ((st.line_counter + 1 : Nat) : Int) % cfg.lines = 0) :
    onLine cfg st f env = { st with line_counter := st.line_counter + 1 } := by
  have hndvd : ¬ cfg.lines ∣ ((st.line_counter : Int) + 1) := by
    intro hd
    apply hm
    apply Int.emod_eq_zero_of_dvd
    push_cast
    exact hd
  simp [onLine, hst, hN, hndvd]

theorem onReturn_nil (cfg : Config) (st : BState) (f : Frame) (now : Nat) (env : SnapEnv)
    (hst : st.stack = []) : onReturn cfg st f now env = st := by
  simp [onReturn, hst]

theorem onReturn_cons (cfg : Config) (st : BState) (f : Frame) (now : Nat) (env : SnapEnv)
    (top : Nat) (rest : List Nat) (hst : st.stack = top :: rest) :
    onReturn cfg st f now env =
      { nodes := st.nodes.set top
          (addEntry (Label.str "return", some st.snaps.length)
            (setEnd now (lget dN st.nodes top))),
        stack := rest,
        next_id := st.next_id,
        line_counter := st.line_counter,
        snaps := st.snaps ++
          [mkPayload cfg "return" f (lget dN st.nodes top).id f.lineno env] } := by
  simp [onReturn, hst, take_snapshot]

theorem inv_init (cfg : Config) : Inv cfg initState := by
  refine ⟨rfl, ?_, trivial, ?_, ?_, ?_, ?_⟩
  · intro i hi; exact absurd hi (Nat.not_lt_zero i)
  · intro i hi; exact absurd hi (Nat.not_lt_zero i)
  · intro i hi; exact absurd hi (Nat.not_lt_zero i)
  · intro i hi; exact absurd hi (Nat.not_lt_zero i)
  · intro _; simp [initState]

theorem call_payload_not_line (cfg : Config) (f : Frame) (nid lineno : Nat) (env : SnapEnv) :
    ((mkPayload cfg "call" f nid lineno env).kind == "line") = false := by
  simp [mkPayload]

theorem return_payload_not_line (cfg : Config) (f : Frame) (nid lineno : Nat) (env : SnapEnv) :
    ((mkPayload cfg "return" f nid lineno env).kind == "line") = false := by
  simp [mkPayload]

theorem inv_onCall (cfg : Config) (st : BState) (f : Frame) (now : Nat) (env : SnapEnv)
    (h : Inv cfg st) : Inv cfg (onCall cfg st f now env) := by
  cases hst : st.stack with
  | nil =>
    rw [onCall_nil cfg st f now env hst]
    refine ⟨?_, ?_, ?_, ?_, ?_, ?_, ?_⟩
    · simp [h.next_id_eq]
    · intro i hi
      simp only [List.length_append, List.length_cons, List.length_nil] at hi
      by_cases hlt : i < st.nodes.length
      · rw [lget_append_lt _ _ _ _ hlt]; exact h.ids i hlt
      · have hieq : i = st.nodes.length := by omega
        subst hieq
        rw [lget_append_len]
        simp [addEntry, newNode, h.next_id_eq]
    · refine ⟨by simp, ?_, ?_, trivial⟩
      · rw [lget_append_len]; simp [addEntry, newNode, hst]
      · rw [lget_append_len]; simp [addEntry, newNode, hst]
    · intro i hi p hp
      simp only [List.length_append, List.length_cons, List.length_nil] at hi
      by_cases hlt : i < st.nodes.length
      · rw [lget_append_lt _ _ _ _ hlt] at hp ⊢
        obtain ⟨h1, h2⟩ := h.parent_some i hlt p hp
        refine ⟨h1, ?_⟩
        rw [lget_append_lt _ _ _ _ (Nat.lt_trans h1 hlt)]
        exact h2
      · have hieq : i = st.nodes.length := by omega
        subst hieq
        rw [lget_append_len] at hp
        simp [addEntry, newNode, hst] at hp
    · intro i hi hp
      simp only [List.length_append, List.length_cons, List.length_nil] at hi
      by_cases hlt : i < st.nodes.length
      · rw [lget_append_lt _ _ _ _ hlt] at hp ⊢
        exact h.parent_none i hlt hp
      · have hieq : i = st.nodes.length := by omega
        subst hieq
        rw [lget_append_len]
        simp [addEntry, newNode, hst]
    · intro i hi e he hh hhe
      simp only [List.length_append, List.length_cons, List.length_nil] at hi ⊢
      by_cases hlt : i < st.nodes.length
      · rw [lget_append_lt _ _ _ _ hlt] at he
        have := h.handles i hlt e he hh hhe
        omega
      · have hieq : i = st.nodes.length := by omega
        subst hieq
        rw [lget_append_len] at he
        simp [addEntry, newNode] at he
        subst he
        simp at hhe
        omega
    · intro hN
      rw [filter_append_one, call_payload_not_line]
      simp [h.line_count hN]
  | cons p rest =>
    have hso : stackOK st.nodes (p :: rest) := hst ▸ h.stack_ok
    obtain ⟨hplt, hpdepth, hpparent, hrest⟩ := hso
    rw [onCall_cons cfg st f now env p rest hst]
    have hskel1 : skel st.nodes
        (st.nodes.set p (addEntry (Label.str "__child__", none) (lget dN st.nodes p))) :=
      skel_set st.nodes p _ (addEntry_skel_fields _)
    set nodes1 := st.nodes.set p (addEntry (Label.str "__child__", none) (lget dN st.nodes p))
      with hn1
    set n2 := addEntry (Label.str ("def@" ++ toString f.firstlineno), some st.snaps.length)
      (newNode st f now) with hn2
    have hlen1 : nodes1.length = st.nodes.length := by simp [hn1]
    have hskel : skel st.nodes (nodes1 ++ [n2]) := skel_trans hskel1 (skel_append_one _ _)
    have hatlen : lget dN (nodes1 ++ [n2]) st.nodes.length = n2 := by
      rw [show st.nodes.length = nodes1.length from hlen1.symm, lget_append_len]
    refine ⟨?_, ?_, ?_, ?_, ?_, ?_, ?_⟩
    · simp [hlen1, h.next_id_eq]
    · intro i hi
      simp only [List.length_append, List.length_cons, List.length_nil, hlen1] at hi
      by_cases hlt : i < st.nodes.length
      · rw [(hskel.2 i hlt).1]; exact h.ids i hlt
      · have hieq : i = st.nodes.length := by omega
        subst hieq
        rw [hatlen]
        simp [hn2, addEntry, newNode, h.next_id_eq]
    · refine ⟨by simp [hlen1], ?_, ?_, ?_⟩
      · rw [hatlen]; simp [hn2, addEntry, newNode, hst]
      · rw [hatlen]; simp [hn2, addEntry, newNode, hst]
      · exact stackOK_skel hskel _ (hst ▸ h.stack_ok)
    · intro i hi q hq
      simp only [List.length_append, List.length_cons, List.length_nil, hlen1] at hi
      by_cases hlt : i < st.nodes.length
      · rw [(hskel.2 i hlt).2.1] at hq
        obtain ⟨h1, h2⟩ := h.parent_some i hlt q hq
        refine ⟨h1, ?_⟩
        rw [(hskel.2 q (Nat.lt_trans h1 hlt)).2.2, (hskel.2 i hlt).2.2]
        exact h2
      · have hieq : i = st.nodes.length := by omega
        subst hieq
        rw [hatlen] at hq ⊢
        have hq2 : q = p := by
          simp [hn2, addEntry, newNode, hst] at hq
          omega
        subst hq2
        refine ⟨hplt, ?_⟩
        rw [(hskel.2 q hplt).2.2, hpdepth]
        simp [hn2, addEntry, newNode, hst]
    · intro i hi hq
      simp only [List.length_append, List.length_cons, List.length_nil, hlen1] at hi
      by_cases hlt : i < st.nodes.length
      · rw [(hskel.2 i hlt).2.1] at hq
        rw [(hskel.2 i hlt).2.2]
        exact h.parent_none i hlt hq
      · have hieq : i = st.nodes.length := by omega
        subst hieq
        rw [hatlen] at hq
        simp [hn2, addEntry, newNode, hst] at hq
    · intro i hi e he hh hhe
      simp only [List.length_append, List.length_cons, List.length_nil, hlen1] at hi ⊢
      by_cases hlt : i < st.nodes.length
      · rw [lget_append_lt _ _ _ _ (hlen1.symm ▸ hlt)] at he
        rw [hn1, lget_set] at he
        by_cases hip : i = p ∧ p < st.nodes.length
        · rw [if_pos hip] at he
          simp only [addEntry, List.mem_append, List.mem_singleton] at he
          cases he with
          | inl hmem =>
            have := h.handles p hip.2 e (by rw [← hip.1] at hmem; exact hip.1 ▸ hmem) hh hhe
            omega
          | inr heq =>
            subst heq
            simp at hhe
        · rw [if_neg hip] at he
          have := h.handles i hlt e he hh hhe
          omega
      · have hieq : i = st.nodes.length := by omega
        subst hieq
        rw [hatlen] at he
        simp [hn2, addEntry, newNode] at he
        subst he
        simp at hhe
        omega
    · intro hN
      rw [filter_append_one, call_payload_not_line]
      simp [h.line_count hN]

theorem sample_cond_iff (L : Int) (hN : 0 < L) (c : Nat) :
    ((c + 1 : Nat) : Int) % L = 0 ↔ L.toNat ∣ (c + 1) := by
  have hcast : ((L.toNat : Nat) : Int) = L := Int.toNat_of_nonneg hN.le
  constructor
  · intro hm
    have h1 : ((c + 1 : Nat) : Int) % ((L.toNat : Nat) : Int) = 0 := by rw [hcast]; exact hm
    rw [← Int.natCast_mod] at h1
    exact Nat.dvd_of_mod_eq_zero (Nat.cast_eq_zero.mp h1)
  · intro hd
    rw [← hcast, ← Int.natCast_mod]
    exact Nat.cast_eq_zero.mpr (Nat.mod_eq_zero_of_dvd hd)

theorem div_step_hit (N c : Nat) (h : N ∣ c + 1) : (c + 1) / N = c / N + 1 := by
  rw [Nat.succ_div]
  simp [h]

theorem div_step_miss (N c : Nat) (h : ¬ N ∣ c + 1) : (c + 1) / N = c / N := by
  rw [Nat.succ_div]
  simp [h]

theorem inv_onLine (cfg : Config) (st : BState) (f : Frame) (env : SnapEnv)
    (h : Inv cfg st) : Inv cfg (onLine cfg st f env) := by
  cases hst : st.stack with
  | nil => rw [onLine_nil cfg st f env hst]; exact h
  | cons top rest =>
    by_cases hN : 0 < cfg.lines
    · by_cases hm : ((st.line_counter + 1 : Nat) : Int) % cfg.lines = 0
      · rw [onLine_hit cfg st f env top rest hst hN hm]
        have hso : stackOK st.nodes (top :: rest) := hst ▸ h.stack_ok
        have htop : top < st.nodes.length := hso.1
        have hskel : skel st.nodes (st.nodes.set top
            (addEntry (Label.num f.lineno, some st.snaps.length) (lget dN st.nodes top))) :=
          skel_set st.nodes top _ (addEntry_skel_fields _)
        refine ⟨?_, ?_, ?_, ?_, ?_, ?_, ?_⟩
        · simp [h.next_id_eq]
        · intro i hi
          simp only [List.length_set] at hi
          rw [(hskel.2 i hi).1]
          exact h.ids i hi
        · exact stackOK_skel hskel _ h.stack_ok
        · intro i hi q hq
          simp only [List.length_set] at hi
          rw [(hskel.2 i hi).2.1] at hq
          obtain ⟨h1, h2⟩ := h.parent_some i hi q hq
          refine ⟨h1, ?_⟩
          rw [(hskel.2 q (Nat.lt_trans h1 hi)).2.2, (hskel.2 i hi).2.2]
          exact h2
        · intro i hi hq
          simp only [List.length_set] at hi
          rw [(hskel.2 i hi).2.1] at hq
          rw [(hskel.2 i hi).2.2]
          exact h.parent_none i hi hq
        · intro i hi e he hh hhe
          simp only [List.length_set] at hi
          simp only [List.length_append, List.length_cons, List.length_nil]
          rw [lget_set] at he
          by_cases hip : i = top ∧ top < st.nodes.length
          · rw [if_pos hip] at he
            simp only [addEntry, List.mem_append, List.mem_singleton] at he
            cases he with
            | inl hmem =>
              have := h.handles top hip.2 e (hip.1 ▸ hmem) hh hhe
              omega
            | inr heq =>
              subst heq
              simp at hhe
              omega
          · rw [if_neg hip] at he
            have := h.handles i hi e he hh hhe
            omega
        · intro _
          have hdvd : cfg.lines.toNat ∣ (st.line_counter + 1) :=
            (sample_cond_iff cfg.lines hN st.line_counter).mp hm
          rw [filter_append_one]
          have hkind : ((mkPayload cfg "line" f (lget dN st.nodes top).id f.lineno env).kind
              == "line") = true := by simp [mkPayload]
          rw [hkind, div_step_hit _ _ hdvd]
          simp [h.line_count hN]
      · rw [onLine_miss cfg st f env top rest hst hN hm]
        refine ⟨h.next_id_eq, h.ids, h.stack_ok, h.parent_some, h.parent_none, h.handles, ?_⟩
        intro _
        have hndvd : ¬ cfg.lines.toNat ∣ (st.line_counter + 1) :=
          fun hd => hm ((sample_cond_iff cfg.lines hN st.line_counter).mpr hd)
        rw [div_step_miss _ _ hndvd]
        exact h.line_count hN
    · rw [onLine_off cfg st f env hN]
      exact h

theorem inv_onReturn (cfg : Config) (st : BState) (f : Frame) (now : Nat) (env : SnapEnv)
    (h : Inv cfg st) : Inv cfg (onReturn cfg st f now env) := by
  cases hst : st.stack with
  | nil => rw [onReturn_nil cfg st f now env hst]; exact h
  | cons top rest =>
    rw [onReturn_cons cfg st f now env top rest hst]
    have hso : stackOK st.nodes (top :: rest) := hst ▸ h.stack_ok
    have htop : top < st.nodes.length := hso.1
    have hskel : skel st.nodes (st.nodes.set top
        (addEntry (Label.str "return", some st.snaps.length)
          (setEnd now (lget dN st.nodes top)))) :=
      skel_set st.nodes top _ (ret_update_skel_fields _ now)
    refine ⟨?_, ?_, ?_, ?_, ?_, ?_, ?_⟩
    · simp [h.next_id_eq]
    · intro i hi
      simp only [List.length_set] at hi
      rw [(hskel.2 i hi).1]
      exact h.ids i hi
    · exact stackOK_skel hskel _ hso.2.2.2
    · intro i hi q hq
      simp only [List.length_set] at hi
      rw [(hskel.2 i hi).2.1] at hq
      obtain ⟨h1, h2⟩ := h.parent_some i hi q hq
      refine ⟨h1, ?_⟩
      rw [(hskel.2 q (Nat.lt_trans h1 hi)).2.2, (hskel.2 i hi).2.2]
      exact h2
    · intro i hi hq
      simp only [List.length_set] at hi
      rw [(hskel.2 i hi).2.1] at hq
      rw [(hskel.2 i hi).2.2]
      exact h.parent_none i hi hq
    · intro i hi e he hh hhe
      simp only [List.length_set] at hi
      simp only [List.length_append, List.length_cons, List.length_nil]
      rw [lget_set] at he
      by_cases hip : i = top ∧ top < st.nodes.length
      · rw [if_pos hip] at he
        simp only [addEntry, setEnd, List.mem_append, List.mem_singleton] at he
        cases he with
        | inl hmem =>
          have := h.handles top hip.2 e (hip.1 ▸ hmem) hh hhe
          omega
        | inr heq =>
          subst heq
          simp at hhe
          omega
      · rw [if_neg hip] at he
        have := h.handles i hi e he hh hhe
        omega
    · intro hN
      rw [filter_append_one, return_payload_not_line]
      simp [h.line_count hN]

theorem inv_tracer (cfg : Config) (st : BState) (ev : Event) (h : Inv cfg st) :
    Inv cfg (tracer cfg st ev).2 := by
  rw [tracer.eq_def]
  by_cases hw : want cfg (evFrame ev).filename
  · rw [if_pos hw]
    cases ev with
    | call f now env => exact inv_onCall cfg st f now env h
    | line f env => exact inv_onLine cfg st f env h
    | ret f now env => exact inv_onReturn cfg st f now env h
  · rw [if_neg hw]
    exact h

theorem inv_foldl (cfg : Config) (evs : List Event) :
    ∀ st, Inv cfg st → Inv cfg (evs.foldl (fun st ev => (tracer cfg st ev).2) st) := by
  induction evs with
  | nil => intro st h; exact h
  | cons ev rest ih =>
    intro st h
    exact ih _ (inv_tracer cfg st ev h)

theorem inv_run (cfg : Config) (evs : List Event) : Inv cfg (run cfg evs) :=
  inv_foldl cfg evs initState (inv_init cfg)

/-! The ancestor count of a node: the length of the chain obtained by
following parent links until none.  The fuel argument makes the recursion
structural; fuel i + 1 always suffices because in every reachable state a
parent index is strictly smaller than the index of its child. -/

def ancCountGo (nodes : List Node) : Nat → Nat → Nat
  | 0, _ => 0
  | fuel + 1, j =>
    match (lget dN nodes j).parent with
    | none => 0
    | some p => if p < j then ancCountGo nodes fuel p + 1 else 0

/-- The number of ancestors of the node at index i reachable by following
parent until none. -/
def ancCount (nodes : List Node) (i : Nat) : Nat := ancCountGo nodes (i + 1) i

theorem depth_eq_ancCountGo (nodes : List Node)
    (hps : ∀ i, i < nodes.length → ∀ p, (lget dN nodes i).parent = some p →
      p < i ∧ (lget dN nodes p).depth + 1 = (lget dN nodes i).depth)
    (hpn : ∀ i, i < nodes.length → (lget dN nodes i).parent = none →
      (lget dN nodes i).depth = 0) :
    ∀ fuel j, j < fuel → j < nodes.length →
      (lget dN nodes j).depth = ancCountGo nodes fuel j := by
  intro fuel
  induction fuel with
  | zero => intro j hj _; exact absurd hj (Nat.not_lt_zero j)
  | succ n ih =>
    intro j hj hjlen
    cases hp : (lget dN nodes j).parent with
    | none =>
      simp only [ancCountGo, hp]
      exact hpn j hjlen hp
    | some p =>
      obtain ⟨hpj, hdepth⟩ := hps j hjlen p hp
      simp only [ancCountGo, hp, if_pos hpj]
      rw [← ih p (by omega) (Nat.lt_trans hpj hjlen)]
      exact hdepth.symm

/-- C2: after any event sequence, every node's depth is the number of
ancestors reached by following parent links until none; equivalently the
parent (when present) was created strictly earlier and has depth one
less, and a node without parent has depth zero. -/
theorem depth_eq_ancestor_count (cfg : Config) (evs : List Event) (i : Nat)
    (hi : i < (run cfg evs).nodes.length) :
    (lget dN (run cfg evs).nodes i).depth = ancCount (run cfg evs).nodes i ∧
    (∀ p, (lget dN (run cfg evs).nodes i).parent = some p →
      p < i ∧ (lget dN (run cfg evs).nodes p).depth + 1
        = (lget dN (run cfg evs).nodes i).depth) ∧
    ((lget dN (run cfg evs).nodes i).parent = none →
      (lget dN (run cfg evs).nodes i).depth = 0) := by
  have h := inv_run cfg evs
  refine ⟨?_, h.parent_some i hi, h.parent_none i hi⟩
  exact depth_eq_ancCountGo (run cfg evs).nodes h.parent_some h.parent_none
    (i + 1) i (Nat.lt_succ_self i) hi

/-- C3: node ids are strictly increasing in creation order, every handle
stored in any event log is a valid index into the snapshot log, and every
append to the snapshot log hands out the next dense index. -/
theorem ids_increasing_handles_dense (cfg : Config) (evs : List Event) :
    (∀ i j, i < j → j < (run cfg evs).nodes.length →
      (lget dN (run cfg evs).nodes i).id < (lget dN (run cfg evs).nodes j).id) ∧
    (∀ i, i < (run cfg evs).nodes.length → ∀ e ∈ (lget dN (run cfg evs).nodes i).lines,
      ∀ hdl, e.2 = some hdl → hdl < (run cfg evs).snaps.length) ∧
    (∀ kind frame nid lineno env snaps0,
      (take_snapshot cfg kind frame nid lineno env snaps0).2 = snaps0.length ∧
      (take_snapshot cfg kind frame nid lineno env snaps0).1
        = snaps0 ++ [mkPayload cfg kind frame nid lineno env]) := by
  have h := inv_run cfg evs
  refine ⟨?_, h.handles, ?_⟩
  · intro i j hij hj
    rw [h.ids i (Nat.lt_trans hij hj), h.ids j hj]
    omega
  · intro kind frame nid lineno env snaps0
    exact ⟨rfl, rfl⟩

/-- Default row used by total list lookup. -/
def dR : Row :=
  { id := 0, name := "", file := "", first_line := 0, depth := 0,
    dur_ms := 0, lines := [] }

theorem lget_map_mkRow (l : List Node) (i : Nat) (h : i < l.length) :
    lget dR (l.map mkRow) i = mkRow (lget dN l i) := by
  induction l generalizing i with
  | nil => exact absurd h (Nat.not_lt_zero i)
  | cons a t ih =>
    cases i with
    | zero => rfl
    | succ n => exact ih n (Nat.lt_of_succ_lt_succ h)

/-- C10: node ids are the consecutive integers from one in creation
order, the report emits one row per node in that same order, and the row
at a position carries the id of that position plus one. -/
theorem ids_consecutive_rows_ordered (cfg : Config) (evs : List Event) (i : Nat)
    (hi : i < (run cfg evs).nodes.length) :
    (lget dN (run cfg evs).nodes i).id = i + 1 ∧
    (rowsOf (run cfg evs).nodes).length = (run cfg evs).nodes.length ∧
    (lget dR (rowsOf (run cfg evs).nodes) i).id = i + 1 := by
  have h := inv_run cfg evs
  refine ⟨h.ids i hi, by simp [rowsOf], ?_⟩
  rw [rowsOf, lget_map_mkRow _ _ hi]
  exact h.ids i hi

/-- The inclusion rule as the specification words it: a nonempty path
that is the entry file or lies beneath the root directory, and that is
not a stdlib path unless stdlib inclusion is switched on. -/
def specIncluded (cfg : Config) (path : String) : Prop :=
  path ≠ "" ∧
  (path = cfg.prog_abs ∨ startswith path (cfg.target_root ++ "/") = true) ∧
  (cfg.include_stdlib = true ∨ is_stdlib cfg path = false)

/-- C5: the filter admits a location exactly when the specification rule
does; an empty path is always excluded, and a path outside the root is
excluded whatever the flags say. -/
theorem want_iff_specIncluded (cfg : Config) (path : String) :
    (want cfg path = true ↔ specIncluded cfg path) ∧
    want cfg "" = false ∧
    (∀ q : String, ¬ q = cfg.prog_abs → startswith q (cfg.target_root ++ "/") = false →
      want cfg q = false) := by
  refine ⟨?_, by simp [want], ?_⟩
  · unfold want specIncluded
    by_cases h0 : path = ""
    · simp [h0]
    · by_cases h1 : (path = cfg.prog_abs ∨ startswith path (cfg.target_root ++ "/") = true)
      · by_cases hb : cfg.include_stdlib
        · simp [h0, h1, hb]
        · by_cases hs : is_stdlib cfg path
          · simp [h0, h1, hb, hs]
          · simp [h0, h1, hb, hs]
      · simp [h0, h1]
  · intro q hq1 hq2
    unfold want
    by_cases g0 : q = ""
    · simp [g0]
    · simp [g0, hq1, hq2]

/-- C6: a call event whose location the filter rejects produces the
skip-subtree signal (the embedding of returning None) and leaves every
component of the builder state exactly as it was. -/
theorem excluded_call_no_effect (cfg : Config) (st : BState) (f : Frame) (now : Nat)
    (env : SnapEnv) (hw : want cfg f.filename = false) :
    tracer cfg st (Event.call f now env) = (false, st) ∧
    (tracer cfg st (Event.call f now env)).2.nodes = st.nodes ∧
    (tracer cfg st (Event.call f now env)).2.snaps = st.snaps ∧
    (tracer cfg st (Event.call f now env)).2.stack = st.stack ∧
    (tracer cfg st (Event.call f now env)).2.next_id = st.next_id ∧
    (tracer cfg st (Event.call f now env)).2.line_counter = st.line_counter := by
  have h : tracer cfg st (Event.call f now env) = (false, st) := by
    simp [tracer, evFrame, hw]
  rw [h]
  exact ⟨rfl, rfl, rfl, rfl, rfl, rfl⟩

/-- C7: the assembler emits one row per node in creation order; an open
node (no end timestamp) yields duration zero, and a finalized node whose
end is at or after its start yields exactly the scaled difference of the
two timestamps. -/
theorem rows_one_per_node_duration (ns : List Node) :
    (rowsOf ns).length = ns.length ∧
    ∀ i, i < ns.length →
      lget dR (rowsOf ns) i = mkRow (lget dN ns i) ∧
      ((lget dN ns i).end_ns = none → (lget dR (rowsOf ns) i).dur_ms = 0) ∧
      (∀ e, (lget dN ns i).end_ns = some e → (lget dN ns i).start_ns ≤ e →
        (lget dR (rowsOf ns) i).dur_ms
          = ((e : ℚ) - ((lget dN ns i).start_ns : ℚ)) / 1000000) := by
  refine ⟨by simp [rowsOf], ?_⟩
  intro i hi
  rw [rowsOf, lget_map_mkRow _ _ hi]
  refine ⟨rfl, ?_, ?_⟩
  · intro hnone
    simp [mkRow, pyOr, hnone]
  · intro e hsome hle
    rw [mkRow]
    simp only [pyOr, hsome]
    by_cases he : e = 0
    · subst he
      have hs0 : (lget dN ns i).start_ns = 0 := Nat.le_zero.mp hle
      simp [hs0]
    · simp only [he, if_neg he]
      push_cast
      ring_nf

/-- C8: value conversion is total (placeholder on failure, marked
truncation on overlength success), and a failing heavyweight capture is
recorded inside the snapshot record while the cheap fields are still
captured, the record still appended and its handle still returned. -/
theorem capture_total_error_isolated (v : Value) (cfg : Config) (kind : String)
    (frame : Frame) (nid lineno : Nat) (env : SnapEnv) (snaps0 : List Snap) :
    (v.reprStr = none → safe_repr v 200 = "<unrepr " ++ v.typeName ++ ">") ∧
    (∀ s, v.reprStr = some s → 200 < s.length → safe_repr v 200 = s.take 200 ++ "…") ∧
    (∀ s, v.reprStr = some s → s.length ≤ 200 → safe_repr v 200 = s) ∧
    (∀ e, cfg.heap_stats = true → env.heavy = HeavyResult.err e →
      (take_snapshot cfg kind frame nid lineno env snaps0).1
        = snaps0 ++
          [{ ts := env.ts, kind := kind, node_id := nid,
             file := frame.filename, lineno := lineno, func := frame.name,
             locals := frame.locals.map fun kv => (kv.1, safe_repr kv.2 200),
             tracemalloc_current := env.current, tracemalloc_peak := env.peak,
             tracemalloc_top := none,
             tracemalloc_top_error := some (safe_repr e 200) }] ∧
      (take_snapshot cfg kind frame nid lineno env snaps0).2 = snaps0.length) := by
  refine ⟨?_, ?_, ?_, ?_⟩
  · intro hnone
    simp [safe_repr, hnone]
  · intro s hsome hlong
    simp [safe_repr, hsome, hlong]
  · intro s hsome hshort
    simp [safe_repr, hsome, Nat.not_lt.mpr hshort]
  · intro e hhs hherr
    constructor
    · simp [take_snapshot, mkPayload, heavyFields, hhs, hherr]
    · rfl

theorem tracer_snaps_ext (cfg : Config) (st : BState) (ev : Event) :
    ∃ t, (tracer cfg st ev).2.snaps = st.snaps ++ t := by
  cases ev with
  | call f now env =>
    by_cases hw : want cfg f.filename
    · have htr : (tracer cfg st (Event.call f now env)).2 = onCall cfg st f now env := by
        simp [tracer, evFrame, hw]
      rw [htr]
      cases hst : st.stack with
      | nil => exact ⟨_, by rw [onCall_nil cfg st f now env hst]⟩
      | cons p rest => exact ⟨_, by rw [onCall_cons cfg st f now env p rest hst]⟩
    · exact ⟨[], by simp [tracer, evFrame, hw]⟩
  | line f env =>
    by_cases hw : want cfg f.filename
    · have htr : (tracer cfg st (Event.line f env)).2 = onLine cfg st f env := by
        simp [tracer, evFrame, hw]
      rw [htr]
      cases hst : st.stack with
      | nil => exact ⟨[], by rw [onLine_nil cfg st f env hst]; simp⟩
      | cons top rest =>
        by_cases hN : 0 < cfg.lines
        · by_cases hm : ((st.line_counter + 1 : Nat) : Int) % cfg.lines = 0
          · exact ⟨_, by rw [onLine_hit cfg st f env top rest hst hN hm]⟩
          · exact ⟨[], by rw [onLine_miss cfg st f env top rest hst hN hm]; simp⟩
        · exact ⟨[], by rw [onLine_off cfg st f env hN]; simp⟩
    · exact ⟨[], by simp [tracer, evFrame, hw]⟩
  | ret f now env =>
    by_cases hw : want cfg f.filename
    · have htr : (tracer cfg st (Event.ret f now env)).2 = onReturn cfg st f now env := by
        simp [tracer, evFrame, hw]
      rw [htr]
      cases hst : st.stack with
      | nil => exact ⟨[], by rw [onReturn_nil cfg st f now env hst]; simp⟩
      | cons top rest => exact ⟨_, by rw [onReturn_cons cfg st f now env top rest hst]⟩
    · exact ⟨[], by simp [tracer, evFrame, hw]⟩

theorem foldl_snaps_ext (cfg : Config) (evs : List Event) :
    ∀ st, ∃ t, (evs.foldl (fun st ev => (tracer cfg st ev).2) st).snaps = st.snaps ++ t := by
  induction evs with
  | nil => intro st; exact ⟨[], by simp⟩
  | cons ev rest ih =>
    intro st
    obtain ⟨t1, h1⟩ := tracer_snaps_ext cfg st ev
    obtain ⟨t2, h2⟩ := ih ((tracer cfg st ev).2)
    exact ⟨t1 ++ t2, by rw [List.foldl_cons, h2, h1, List.append_assoc]⟩

/-- C9: the snapshot log is append-only across every tracer step and
every run extension, so a handle once valid keeps resolving to the same
record, and the handle returned by an append resolves to exactly the
payload that was captured. -/
theorem snapshot_roundtrip (cfg : Config) (st : BState) (ev : Event)
    (evs1 evs2 : List Event) (kind : String) (frame : Frame) (nid lineno : Nat)
    (env : SnapEnv) (snaps0 : List Snap) :
    (∃ t, (tracer cfg st ev).2.snaps = st.snaps ++ t) ∧
    (∀ hdl, hdl < st.snaps.length →
      lget dS (tracer cfg st ev).2.snaps hdl = lget dS st.snaps hdl) ∧
    (∃ t, (run cfg (evs1 ++ evs2)).snaps = (run cfg evs1).snaps ++ t) ∧
    (∀ hdl, hdl < (run cfg evs1).snaps.length →
      lget dS (run cfg (evs1 ++ evs2)).snaps hdl = lget dS (run cfg evs1).snaps hdl) ∧
    lget dS (take_snapshot cfg kind frame nid lineno env snaps0).1
        (take_snapshot cfg kind frame nid lineno env snaps0).2
      = mkPayload cfg kind frame nid lineno env := by
  have hrunext : ∃ t, (run cfg (evs1 ++ evs2)).snaps = (run cfg evs1).snaps ++ t := by
    rw [run, run, List.foldl_append]
    exact foldl_snaps_ext cfg evs2 _
  refine ⟨tracer_snaps_ext cfg st ev, ?_, hrunext, ?_, ?_⟩
  · intro hdl hlt
    obtain ⟨t, ht⟩ := tracer_snaps_ext cfg st ev
    rw [ht, lget_append_lt _ _ _ _ hlt]
  · intro hdl hlt
    obtain ⟨t, ht⟩ := hrunext
    rw [ht, lget_append_lt _ _ _ _ hlt]
  · exact lget_append_len dS snaps0 _

/-- C1: with a positive sampling interval the number of captured line
snapshots over any whole run is the run-global line counter divided by
the interval; a line event with an empty stack or a rejected location
changes nothing; an admitted line event bumps the run-global counter by
one (whatever frame it comes from) and captures exactly when the bumped
counter is a multiple of the interval, appending the line number with the
fresh handle to the log of the node on top of the stack; and with
sampling disabled a line event changes nothing. -/
theorem line_sampling_global (cfg : Config) (hN : 0 < cfg.lines) (evs : List Event)
    (st : BState) (f : Frame) (env : SnapEnv) :
    ((run cfg evs).snaps.filter fun s => s.kind == "line").length
        = (run cfg evs).line_counter / cfg.lines.toNat ∧
    (st.stack = [] → (tracer cfg st (Event.line f env)).2 = st) ∧
    (want cfg f.filename = false → tracer cfg st (Event.line f env) = (false, st)) ∧
    (∀ top rest, want cfg f.filename = true → st.stack = top :: rest →
      top < st.nodes.length →
      (tracer cfg st (Event.line f env)).2.line_counter = st.line_counter + 1 ∧
      (tracer cfg st (Event.line f env)).2.stack = st.stack ∧
      (((st.line_counter + 1 : Nat) : Int) % cfg.lines = 0 →
        (tracer cfg st (Event.line f env)).2.snaps
          = st.snaps ++ [mkPayload cfg "line" f (lget dN st.nodes top).id f.lineno env] ∧
        (lget dN (tracer cfg st (Event.line f env)).2.nodes top).lines
          = (lget dN st.nodes top).lines ++ [(Label.num f.lineno, some st.snaps.length)]) ∧
      (¬ ((st.line_counter + 1 : Nat) : Int) % cfg.lines = 0 →
        (tracer cfg st (Event.line f env)).2.snaps = st.snaps ∧
        (tracer cfg st (Event.line f env)).2.nodes = st.nodes)) ∧
    (∀ cfg2 st2 f2 env2, cfg2.lines ≤ 0 → (tracer cfg2 st2 (Event.line f2 env2)).2 = st2) := by
  refine ⟨(inv_run cfg evs).line_count hN, ?_, ?_, ?_, ?_⟩
  · intro hst
    by_cases hw : want cfg f.filename
    · simp [tracer, evFrame, hw, onLine_nil cfg st f env hst]
    · simp [tracer, evFrame, hw]
  · intro hw
    simp [tracer, evFrame, hw]
  · intro top rest hw hst htop
    have htr : (tracer cfg st (Event.line f env)).2 = onLine cfg st f env := by
      simp [tracer, evFrame, hw]
    rw [htr]
    by_cases hm : ((st.line_counter + 1 : Nat) : Int) % cfg.lines = 0
    · rw [onLine_hit cfg st f env top rest hst hN hm]
      refine ⟨rfl, rfl, ?_, ?_⟩
      · intro _
        refine ⟨rfl, ?_⟩
        rw [lget_set, if_pos ⟨rfl, htop⟩]
        rfl
      · intro hcon
        exact absurd hm hcon
    · rw [onLine_miss cfg st f env top rest hst hN hm]
      exact ⟨rfl, rfl, fun hcon => absurd hcon hm, fun _ => ⟨rfl, rfl⟩⟩
  · intro cfg2 st2 f2 env2 hle
    have hN2 : ¬ 0 < cfg2.lines := by omega
    by_cases hw : want cfg2 f2.filename
    · simp [tracer, evFrame, hw, onLine_off cfg2 st2 f2 env2 hN2]
    · simp [tracer, evFrame, hw]

/-! Concrete fixtures: a configuration rooted at the directory of the
entry file /a/t.py, the frames of the outer/inner scenario, and event
sequences used to instantiate the theorems on concrete runs. -/

def envZ : SnapEnv := { ts := 0, current := 0, peak := 0, heavy := HeavyResult.ok [] }

def cfgScen (interval : Int) : Config :=
  { include_stdlib := false, lines := interval, heap_stats := false,
    prog_abs := "/a/t.py", target_root := "/a",
    stdlib_path := "/s", platstdlib_path := "/s" }

def outerFrame (l : Nat) : Frame :=
  { filename := "/a/t.py", name := "outer", firstlineno := 1, lineno := l, locals := [] }

def innerFrame (l : Nat) : Frame :=
  { filename := "/a/t.py", name := "inner", firstlineno := 5, lineno := l, locals := [] }

def rejectedFrame : Frame :=
  { filename := "/b/x.py", name := "f", firstlineno := 1, lineno := 1, locals := [] }

/-- The event stream of the scenario in which the entry file defines
outer calling inner: outer runs one statement, calls inner, inner runs
two statements and returns, outer runs one more statement and returns. -/
def scenEvents : List Event :=
  [Event.call (outerFrame 1) 10 envZ, Event.line (outerFrame 2) envZ,
   Event.call (innerFrame 5) 20 envZ, Event.line (innerFrame 6) envZ,
   Event.line (innerFrame 7) envZ, Event.ret (innerFrame 7) 30 envZ,
   Event.line (outerFrame 4) envZ, Event.ret (outerFrame 4) 40 envZ]

/-- One call followed by five line events, the run of the sampling
example with interval two. -/
def fiveLineEvents : List Event :=
  [Event.call (outerFrame 1) 10 envZ, Event.line (outerFrame 2) envZ,
   Event.line (outerFrame 2) envZ, Event.line (outerFrame 3) envZ,
   Event.line (outerFrame 3) envZ, Event.line (outerFrame 4) envZ]

/-- C4 counterexample: in the outer/inner scenario with sampling off the
builder does produce two nodes, but it is false that each of the two
event logs has exactly two entries: the outer log has a third entry, the
child-entered spacer appended when inner was called. -/
theorem scenario_two_entries_false :
    (run (cfgScen 0) scenEvents).nodes.length = 2 ∧
    ¬ ((lget dN (run (cfgScen 0) scenEvents).nodes 0).lines.length = 2 ∧
       (lget dN (run (cfgScen 0) scenEvents).nodes 1).lines.length = 2) := by
  decide

/-- C4 amended: with sampling off the scenario produces exactly two
nodes, outer at depth zero and inner at depth one; the inner log has
exactly the def and return entries, the outer log has exactly the def
entry, the child-entered spacer and the return entry, and neither log
contains any line entry. -/
theorem scenario_log_shapes :
    (run (cfgScen 0) scenEvents).nodes.length = 2 ∧
    (lget dN (run (cfgScen 0) scenEvents).nodes 0).name = "outer" ∧
    (lget dN (run (cfgScen 0) scenEvents).nodes 0).depth = 0 ∧
    (lget dN (run (cfgScen 0) scenEvents).nodes 1).name = "inner" ∧
    (lget dN (run (cfgScen 0) scenEvents).nodes 1).depth = 1 ∧
    (lget dN (run (cfgScen 0) scenEvents).nodes 0).lines
      = [(Label.str "def@1", some 0), (Label.str "__child__", none),
         (Label.str "return", some 3)] ∧
    (lget dN (run (cfgScen 0) scenEvents).nodes 1).lines
      = [(Label.str "def@5", some 1), (Label.str "return", some 2)] := by
  decide

/-- Witness for C1 at the sampling example of the specification: with
interval two and five line events inside one call the counted line
snapshots are the counter divided by two. -/
theorem line_sampling_global_witness :
    0 < (cfgScen 2).lines ∧
    ((run (cfgScen 2) fiveLineEvents).snaps.filter fun s => s.kind == "line").length
      = (run (cfgScen 2) fiveLineEvents).line_counter / (cfgScen 2).lines.toNat :=
  ⟨by decide,
   (line_sampling_global (cfgScen 2) (by decide) fiveLineEvents initState
     (outerFrame 2) envZ).1⟩

/-- Witness for C2 at the inner node of the scenario run. -/
theorem depth_eq_ancestor_count_witness :
    (lget dN (run (cfgScen 0) scenEvents).nodes 1).depth
      = ancCount (run (cfgScen 0) scenEvents).nodes 1 :=
  (depth_eq_ancestor_count (cfgScen 0) scenEvents 1 (by decide)).1

/-- Witness for C3 at the two nodes of the scenario run. -/
theorem ids_increasing_handles_dense_witness :
    (lget dN (run (cfgScen 0) scenEvents).nodes 0).id
      < (lget dN (run (cfgScen 0) scenEvents).nodes 1).id :=
  (ids_increasing_handles_dense (cfgScen 0) scenEvents).1 0 1 (by decide) (by decide)

/-- Witness for C5: the empty path and a path outside the root are both
rejected under the scenario configuration. -/
theorem want_iff_specIncluded_witness :
    want (cfgScen 0) "" = false ∧ want (cfgScen 0) "/b/x.py" = false :=
  ⟨(want_iff_specIncluded (cfgScen 0) "").2.1,
   (want_iff_specIncluded (cfgScen 0) "/b/x.py").2.2 "/b/x.py" (by decide) (by decide)⟩

/-- Witness for C6: a call from /b/x.py, outside the root /a, is
rejected and leaves the initial state untouched. -/
theorem excluded_call_no_effect_witness :
    want (cfgScen 0) rejectedFrame.filename = false ∧
    tracer (cfgScen 0) initState (Event.call rejectedFrame 5 envZ) = (false, initState) :=
  ⟨by decide,
   (excluded_call_no_effect (cfgScen 0) initState rejectedFrame 5 envZ (by decide)).1⟩

/-- A node whose return was never observed. -/
def openNode : Node :=
  { id := 1, parent := none, name := "f", file := "/a/t.py", first_line := 1,
    depth := 0, start_ns := 7, end_ns := none, lines := [] }

/-- A node finalized by a return at a later timestamp. -/
def doneNode : Node :=
  { id := 2, parent := none, name := "g", file := "/a/t.py", first_line := 3,
    depth := 0, start_ns := 7, end_ns := some 17, lines := [] }

/-- Witness for C7: the open node gets duration zero, the finalized node
gets the scaled difference of its timestamps. -/
theorem rows_one_per_node_duration_witness :
    (lget dR (rowsOf [openNode, doneNode]) 0).dur_ms = 0 ∧
    (lget dR (rowsOf [openNode, doneNode]) 1).dur_ms
      = (((17 : Nat) : ℚ) - ((lget dN [openNode, doneNode] 1).start_ns : ℚ)) / 1000000 := by
  have h := rows_one_per_node_duration [openNode, doneNode]
  exact ⟨(h.2 0 (by decide)).2.1 (by decide),
         (h.2 1 (by decide)).2.2 17 (by decide) (by decide)⟩

/-- A value whose repr raises. -/
def badVal : Value := { reprStr := none, typeName := "Widget" }

/-- An environment in which the heavyweight capture raises. -/
def errEnv : SnapEnv :=
  { ts := 3, current := 11, peak := 22,
    heavy := HeavyResult.err { reprStr := some "boom", typeName := "RuntimeError" } }

/-- The scenario configuration with heap statistics switched on. -/
def cfgHeap : Config :=
  { include_stdlib := false, lines := 0, heap_stats := true,
    prog_abs := "/a/t.py", target_root := "/a",
    stdlib_path := "/s", platstdlib_path := "/s" }

/-- Witness for C8: the unconvertible value gets its type-name
placeholder and a capture with failing heavy statistics still appends a
record and returns its handle. -/
theorem capture_total_error_isolated_witness :
    safe_repr badVal 200 = "<unrepr Widget>" ∧
    (take_snapshot cfgHeap "call" (outerFrame 1) 1 1 errEnv []).2 = 0 := by
  have h := capture_total_error_isolated badVal cfgHeap "call" (outerFrame 1) 1 1 errEnv []
  exact ⟨h.1 rfl,
    (h.2.2.2 { reprStr := some "boom", typeName := "RuntimeError" } (by decide) rfl).2⟩

/-- Witness for C9: an appended record is read back unchanged, and
extending the scenario run does not disturb the record behind handle
zero. -/
theorem snapshot_roundtrip_witness :
    lget dS (take_snapshot (cfgScen 0) "call" (outerFrame 1) 1 1 envZ []).1
        (take_snapshot (cfgScen 0) "call" (outerFrame 1) 1 1 envZ []).2
      = mkPayload (cfgScen 0) "call" (outerFrame 1) 1 1 envZ ∧
    lget dS (run (cfgScen 0) (scenEvents ++ [Event.line (outerFrame 4) envZ])).snaps 0
      = lget dS (run (cfgScen 0) scenEvents).snaps 0 := by
  have h := snapshot_roundtrip (cfgScen 0) initState (Event.call (outerFrame 1) 10 envZ)
    scenEvents [Event.line (outerFrame 4) envZ] "call" (outerFrame 1) 1 1 envZ []
  exact ⟨h.2.2.2.2, h.2.2.2.1 0 (by decide)⟩

/-- Witness for C10 at the second node of the scenario run. -/
theorem ids_consecutive_rows_ordered_witness :
    (lget dN (run (cfgScen 0) scenEvents).nodes 1).id = 1 + 1 ∧
    (lget dR (rowsOf (run (cfgScen 0) scenEvents).nodes) 1).id = 1 + 1 := by
  have h := ids_consecutive_rows_ordered (cfgScen 0) scenEvents 1 (by decide)
  exact ⟨h.1, h.2.2⟩

end Pyleup
